import Mathlib

/-!
Shallow embedding of the spaced-repetition scheduling engine of the
Flashcards repository: the SM-2 review transition
(`Flashcard.process_sm2_review` in app/models/flashcard.py) and the
query/forecast/statistics operations of `StudyService`
(app/services/study_service.py).

Numbers: Python floats are modelled as rationals, Python ints as ℤ/ℕ,
datetimes as integer seconds since the epoch (a timedelta of d days is
86400*d seconds, and midnight of a timestamp t is 86400 * (t / 86400),
since integer division by a positive number rounds toward negative
infinity both here and in Python).
-/

/-- Learning states stored in the `learning_state` column: the code only
ever writes the strings new / learning / review / mastered. -/
inductive LearningState where
  | new
  | learning
  | review
  | mastered
deriving DecidableEq, Repr

/-- Scheduling-relevant fields of a flashcard (app/models/flashcard.py).
Text/AI fields are omitted: no scheduling operation reads them. -/
structure Flashcard where
  difficulty : ℤ
  times_studied : ℕ
  times_correct : ℕ
  ease_factor : ℚ
  interval : ℤ
  repetitions : ℕ
  next_review_date : ℤ
  last_reviewed : Option ℤ
  learning_state : LearningState
  created_at : ℤ
deriving DecidableEq, Repr

/-- Floor of a rational as an integer. -/
def qfloor (q : ℚ) : ℤ := ⌊q⌋

/-- Python 3 built-in `round` to an integer: round half to even
(banker's rounding), e.g. `round(12.5) == 12`, `round(13.5) == 14`. -/
def pyRound (q : ℚ) : ℤ :=
  let f := qfloor q
  let r := q - (f : ℚ)
  if r < 1/2 then f
  else if 1/2 < r then f + 1
  else if f % 2 = 0 then f else f + 1

/-- Python 3 `round(x, n)` for positive `n`: half-to-even at the n-th
decimal digit (idealized over exact rationals). -/
def pyRoundTo (n : ℕ) (q : ℚ) : ℚ := (pyRound (q * (10 : ℚ) ^ n) : ℚ) / (10 : ℚ) ^ n

/-- Python `int()` on a float: truncation toward zero. -/
def pyInt (q : ℚ) : ℤ := if 0 ≤ q then ⌊q⌋ else ⌈q⌉

/-- Python's two-argument `max` on rationals (keeps the first argument
on ties, which is observationally irrelevant for values). -/
def pyMaxQ (a b : ℚ) : ℚ := if a < b then b else a

/-- Python's two-argument `max` on integers. -/
def pyMaxZ (a b : ℤ) : ℤ := if a < b then b else a

/-- Python's two-argument `min` on integers. -/
def pyMinZ (a b : ℤ) : ℤ := if b < a then b else a

lemma pyMaxQ_eq_max (a b : ℚ) : pyMaxQ a b = max a b := by
  unfold pyMaxQ
  split_ifs with h
  · exact (max_eq_right h.le).symm
  · exact (max_eq_left (not_lt.mp h)).symm

/-- Change added to the ease factor for a review of the given quality:
0.1 - (5 - quality) * (0.08 + (5 - quality) * 0.02)
(app/models/flashcard.py line 162). -/
def easeChange (quality : ℤ) : ℚ :=
  1/10 - ((5 : ℚ) - (quality : ℚ)) * (2/25 + ((5 : ℚ) - (quality : ℚ)) * (1/50))

/-- The interval/repetitions/learning-state core of the SM-2 branch
(app/models/flashcard.py lines 134-158): lapse resets, first two
successes use fixed intervals 1 and 6, later successes multiply by the
ease factor, and an interval above 21 days marks the card mastered. -/
def sm2core (quality : ℤ) (c : Flashcard) : Flashcard :=
  if quality < 3 then
    { c with repetitions := 0, interval := 0, learning_state := LearningState.learning }
  else
    let c1 :=
      if c.repetitions = 0 then
        { c with interval := 1, learning_state := LearningState.learning }
      else if c.repetitions = 1 then
        { c with interval := 6, learning_state := LearningState.review }
      else
        { c with interval := pyRound ((c.interval : ℚ) * c.ease_factor),
                 learning_state := LearningState.review }
    let c2 := { c1 with repetitions := c1.repetitions + 1 }
    if 21 < c2.interval then { c2 with learning_state := LearningState.mastered } else c2

/-- Statistics update at the top of `process_sm2_review`
(app/models/flashcard.py lines 123-130): bump the studied counter,
record the review time, and count the answer correct when quality is at
least 3. -/
def bumpCounters (now : ℤ) (quality : ℤ) (c : Flashcard) : Flashcard :=
  let c1 := { c with times_studied := c.times_studied + 1, last_reviewed := some now }
  if 3 ≤ quality then { c1 with times_correct := c1.times_correct + 1 } else c1

/-- Embedding of `Flashcard.process_sm2_review(quality)`
(app/models/flashcard.py lines 98-180), with the implicit
`datetime.utcnow()` passed explicitly as `now`. Updates the counters,
runs the SM-2 core, applies the clamped ease-factor update, schedules
the next review `interval` days ahead, and refreshes the legacy
difficulty field. -/
def process_sm2_review (now : ℤ) (quality : ℤ) (c : Flashcard) : Flashcard :=
  let c3 := sm2core quality (bumpCounters now quality c)
  let ef := pyMaxQ (13/10 : ℚ) (c3.ease_factor + easeChange quality)
  let c4 := { c3 with ease_factor := ef }
  let c5 := { c4 with next_review_date := now + 86400 * c4.interval }
  { c5 with difficulty := if (5/2 : ℚ) ≤ ef then pyMinZ 5 (pyInt ef) else pyMaxZ 1 (pyInt ef) }

/-- A sequence of reviews applied in order; each entry carries the time
of the review and the quality rating. -/
def applyReviews (c : Flashcard) (rs : List (ℤ × ℤ)) : Flashcard :=
  rs.foldl (fun s r => process_sm2_review r.1 r.2 s) c

/-- Embedding of `Flashcard.is_due_for_review` (app/models/flashcard.py
lines 83-87): a card in state new is due unconditionally, otherwise it
is due when now has reached the next review date. -/
def is_due_for_review (now : ℤ) (c : Flashcard) : Bool :=
  if c.learning_state = LearningState.new then true
  else decide (c.next_review_date ≤ now)

/-- A fresh card as produced by `StudyService.create_flashcard`
(app/services/study_service.py lines 13-26). -/
def create_flashcard (now : ℤ) : Flashcard :=
  { difficulty := 1, times_studied := 0, times_correct := 0, ease_factor := 5/2,
    interval := 0, repetitions := 0, next_review_date := now, last_reviewed := none,
    learning_state := LearningState.new, created_at := now }

/-- Lapsed card test of `get_due_cards`'s priority function: studied at
least once but with repetitions reset to 0
(app/services/study_service.py line 94). -/
def isLapsedCard (c : Flashcard) : Bool :=
  decide (0 < c.times_studied ∧ c.repetitions = 0)

/-- Priority class assigned by `get_priority`
(app/services/study_service.py lines 92-103): 0 for lapsed cards, 1 for
new cards, 2 for the rest. -/
def cardPriority (c : Flashcard) : ℕ :=
  if isLapsedCard c then 0
  else if c.learning_state = LearningState.new then 1
  else 2

/-- Second component of the priority tuple: due date for lapsed and
review cards, creation time for new cards. -/
def cardDateKey (c : Flashcard) : ℤ :=
  if isLapsedCard c then c.next_review_date
  else if c.learning_state = LearningState.new then c.created_at
  else c.next_review_date

/-- Third component of the priority tuple: the ease factor, used only in
priority class 2 (Python compares the shorter tuples before reaching
it, so classes 0 and 1 take a constant here). -/
def cardEaseKey (c : Flashcard) : ℚ :=
  if cardPriority c = 2 then c.ease_factor else 0

/-- Lexicographic order on the `get_priority` tuples, exactly the order
Python's stable `list.sort(key=get_priority)` sorts by. -/
def keyLE (a b : Flashcard) : Bool :=
  decide (cardPriority a < cardPriority b ∨
    (cardPriority a = cardPriority b ∧
      (cardDateKey a < cardDateKey b ∨
        (cardDateKey a = cardDateKey b ∧ cardEaseKey a ≤ cardEaseKey b))))

/-- Embedding of `StudyService.get_due_cards`
(app/services/study_service.py lines 62-110): filter the deck's cards
on `next_review_date <= now`, stable-sort by the priority key, then
truncate when a limit is passed (Python's `if limit:` treats both
`None` and 0 as no limit). -/
def get_due_cards (now : ℤ) (cards : List Flashcard) (limit : Option ℕ) : List Flashcard :=
  let due := cards.filter fun c => decide (c.next_review_date ≤ now)
  let sorted := due.mergeSort keyLE
  match limit with
  | none => sorted
  | some l => if l = 0 then sorted else sorted.take l

/-- One bucket of the review forecast: the calendar day (as a day
number, i.e. the timestamp of its midnight divided by 86400) and the
number of cards due that day. -/
structure ForecastEntry where
  date : ℤ
  count : ℕ
deriving DecidableEq, Repr

/-- One iteration of the forecast loop of
`StudyService.get_upcoming_reviews`: midnight of `now` plus `k` days
opens the window, and the bucket counts the cards due inside it. -/
def forecastBucket (now : ℤ) (cards : List Flashcard) (k : ℕ) : ForecastEntry :=
  let s : ℤ := 86400 * ((now + 86400 * (k : ℤ)) / 86400)
  { date := (now + 86400 * (k : ℤ)) / 86400,
    count := cards.countP fun c =>
      decide (s ≤ c.next_review_date ∧ c.next_review_date < s + 86400) }

/-- Embedding of `StudyService.get_upcoming_reviews`
(app/services/study_service.py lines 371-402): for each day offset in
`range(days)`, count the cards whose next review date falls inside that
calendar day's window, taking the window from midnight of
`now + offset` days. -/
def get_upcoming_reviews (now : ℤ) (days : ℕ) (cards : List Flashcard) : List ForecastEntry :=
  (List.range days).map (forecastBucket now cards)

/-- The studied cards of a collection (`times_studied > 0`), the list
the statistics aggregate over. -/
def studiedCards (cards : List Flashcard) : List Flashcard :=
  cards.filter fun c => decide (0 < c.times_studied)

/-- The record returned by `StudyService.get_study_statistics`. -/
structure StudyStatistics where
  total_cards : ℕ
  new_cards : ℕ
  learning_cards : ℕ
  review_cards : ℕ
  mastered_cards : ℕ
  due_today : ℕ
  studied_cards : ℕ
  unstudied_cards : ℕ
  avg_accuracy : ℚ
  avg_ease_factor : ℚ
  total_study_sessions : ℕ
  retention_rate : ℚ
  cards_needing_review : ℕ
deriving DecidableEq, Repr

/-- Embedding of `StudyService.get_study_statistics`
(app/services/study_service.py lines 305-369): an all-zero record for
an empty deck, otherwise counts per state, the due-now count (via
`is_due_for_review`), accuracy over all study events, the mean ease
factor over studied cards (2.5 default when none), and the share of
studied cards with ease factor at least 2.5; the three averages are
reported as Python rounds them (1, 2 and 1 decimal digits). -/
def get_study_statistics (now : ℤ) (cards : List Flashcard) : StudyStatistics :=
  if cards.isEmpty then
    { total_cards := 0, new_cards := 0, learning_cards := 0, review_cards := 0,
      mastered_cards := 0, due_today := 0, studied_cards := 0, unstudied_cards := 0,
      avg_accuracy := 0, avg_ease_factor := 0, total_study_sessions := 0,
      retention_rate := 0, cards_needing_review := 0 }
  else
    let total_cards := cards.length
    let studied_card_list := studiedCards cards
    let studied_cards := studied_card_list.length
    let total_correct := (cards.map Flashcard.times_correct).sum
    let total_studies := (cards.map Flashcard.times_studied).sum
    let avg_accuracy : ℚ :=
      if 0 < total_studies then (total_correct : ℚ) / (total_studies : ℚ) * 100 else 0
    let avg_ease_factor : ℚ :=
      if studied_card_list.isEmpty then 5/2
      else (studied_card_list.map Flashcard.ease_factor).sum / (studied_cards : ℚ)
    let retention_rate : ℚ :=
      if studied_card_list.isEmpty then 0
      else ((studied_card_list.filter fun c => decide ((5/2 : ℚ) ≤ c.ease_factor)).length : ℚ)
        / (studied_cards : ℚ) * 100
    let due_today := cards.countP (is_due_for_review now)
    { total_cards := total_cards,
      new_cards := cards.countP fun c => decide (c.learning_state = LearningState.new),
      learning_cards := cards.countP fun c => decide (c.learning_state = LearningState.learning),
      review_cards := cards.countP fun c => decide (c.learning_state = LearningState.review),
      mastered_cards := cards.countP fun c => decide (c.learning_state = LearningState.mastered),
      due_today := due_today,
      studied_cards := studied_cards,
      unstudied_cards := total_cards - studied_cards,
      avg_accuracy := pyRoundTo 1 avg_accuracy,
      avg_ease_factor := pyRoundTo 2 avg_ease_factor,
      total_study_sessions := total_studies,
      retention_rate := pyRoundTo 1 retention_rate,
      cards_needing_review := due_today }

/-! Concrete cards used by witnesses and counterexamples. -/

/-- A mastered card with several successful repetitions behind it. -/
def masteredCard : Flashcard :=
  { difficulty := 3, times_studied := 10, times_correct := 9, ease_factor := 5/2,
    interval := 30, repetitions := 4, next_review_date := 86400, last_reviewed := some 0,
    learning_state := LearningState.mastered, created_at := 0 }

/-- A review-phase card on which interval growth hits an exact half:
interval 5 at ease factor 2.5 gives 5 * 2.5 = 12.5. -/
def halfTieCard : Flashcard :=
  { difficulty := 3, times_studied := 4, times_correct := 4, ease_factor := 5/2,
    interval := 5, repetitions := 2, next_review_date := 0, last_reviewed := some 0,
    learning_state := LearningState.review, created_at := 0 }

/-! Projection helpers for the SM-2 core. -/

lemma sm2core_preserves (q : ℤ) (c : Flashcard) :
    (sm2core q c).times_studied = c.times_studied ∧
    (sm2core q c).times_correct = c.times_correct ∧
    (sm2core q c).ease_factor = c.ease_factor ∧
    (sm2core q c).last_reviewed = c.last_reviewed := by
  unfold sm2core
  dsimp only
  split_ifs <;> simp_all

lemma bumpCounters_fields (now q : ℤ) (c : Flashcard) :
    (bumpCounters now q c).times_studied = c.times_studied + 1 ∧
    (bumpCounters now q c).ease_factor = c.ease_factor ∧
    (bumpCounters now q c).interval = c.interval ∧
    (bumpCounters now q c).repetitions = c.repetitions ∧
    (bumpCounters now q c).learning_state = c.learning_state := by
  unfold bumpCounters
  dsimp only
  split_ifs <;> simp

lemma process_times_studied (now q : ℤ) (c : Flashcard) :
    (process_sm2_review now q c).times_studied = c.times_studied + 1 := by
  simp [process_sm2_review, (sm2core_preserves q _).1, (bumpCounters_fields now q c).1]

lemma process_ease_factor (now q : ℤ) (c : Flashcard) :
    (process_sm2_review now q c).ease_factor = max (13/10) (c.ease_factor + easeChange q) := by
  simp [process_sm2_review, pyMaxQ_eq_max,
    (sm2core_preserves q _).2.2.1, (bumpCounters_fields now q c).2.1]

lemma process_interval_eq (now q : ℤ) (c : Flashcard) :
    (process_sm2_review now q c).interval = (sm2core q (bumpCounters now q c)).interval := by
  simp [process_sm2_review]

lemma process_state_eq (now q : ℤ) (c : Flashcard) :
    (process_sm2_review now q c).learning_state
      = (sm2core q (bumpCounters now q c)).learning_state := by
  simp [process_sm2_review]

lemma process_reps_eq (now q : ℤ) (c : Flashcard) :
    (process_sm2_review now q c).repetitions
      = (sm2core q (bumpCounters now q c)).repetitions := by
  simp [process_sm2_review]

lemma process_lapse_fields (now q : ℤ) (c : Flashcard) (hq : q < 3) :
    (process_sm2_review now q c).repetitions = 0 ∧
    (process_sm2_review now q c).interval = 0 ∧
    (process_sm2_review now q c).learning_state = LearningState.learning := by
  simp [process_sm2_review, sm2core, hq]

/-- C1 step: a single review always leaves the ease factor at or above
the 1.3 floor, because the update clamps with a max. -/
lemma process_ease_floor (now q : ℤ) (c : Flashcard) :
    (13/10 : ℚ) ≤ (process_sm2_review now q c).ease_factor := by
  rw [process_ease_factor]
  exact le_max_left _ _

lemma applyReviews_ease_floor (rs : List (ℤ × ℤ)) (c : Flashcard)
    (h : (13/10 : ℚ) ≤ c.ease_factor) : (13/10 : ℚ) ≤ (applyReviews c rs).ease_factor := by
  induction rs generalizing c with
  | nil => exact h
  | cons r rs ih =>
    exact ih (process_sm2_review r.1 r.2 c) (process_ease_floor r.1 r.2 c)

/-- C1: after any review, and then any further finite sequence of
reviews, the ease factor is at least 1.3: every update clamps with
max(1.3, _), so no scheduler operation produces an ease factor below
the floor. -/
theorem sm2_ease_factor_floor (c : Flashcard) (now q : ℤ) (rs : List (ℤ × ℤ)) :
    (13/10 : ℚ) ≤ (applyReviews (process_sm2_review now q c) rs).ease_factor :=
  applyReviews_ease_floor rs _ (process_ease_floor now q c)

/-- C2: for any state with positive repetitions, a review with quality
below 3 resets repetitions and interval to 0 and moves the card to the
learning state, from every learning state including mastered. -/
theorem sm2_lapse_resets (c : Flashcard) (now q : ℤ)
    (hrep : 0 < c.repetitions) (hq : q < 3) :
    (process_sm2_review now q c).repetitions = 0 ∧
    (process_sm2_review now q c).interval = 0 ∧
    (process_sm2_review now q c).learning_state = LearningState.learning :=
  process_lapse_fields now q c hq

/-- C2 witness: the lapse reset applied to a concrete mastered card with
repetitions 4, at quality 1. -/
theorem sm2_lapse_resets_witness :
    0 < masteredCard.repetitions ∧ (1 : ℤ) < 3 ∧
      ((process_sm2_review 0 1 masteredCard).repetitions = 0 ∧
        (process_sm2_review 0 1 masteredCard).interval = 0 ∧
        (process_sm2_review 0 1 masteredCard).learning_state = LearningState.learning) :=
  ⟨by decide, by decide, sm2_lapse_resets masteredCard 0 1 (by decide) (by decide)⟩

/-! Branch characterizations of the SM-2 success path. -/

lemma sm2core_first_success (q : ℤ) (c : Flashcard) (hq : ¬ q < 3)
    (h0 : c.repetitions = 0) :
    (sm2core q c).interval = 1 ∧ (sm2core q c).repetitions = 1 ∧
      (sm2core q c).learning_state = LearningState.learning := by
  unfold sm2core
  dsimp only
  split_ifs <;> simp_all

lemma sm2core_second_success (q : ℤ) (c : Flashcard) (hq : ¬ q < 3)
    (h1 : c.repetitions = 1) :
    (sm2core q c).interval = 6 ∧ (sm2core q c).repetitions = 2 ∧
      (sm2core q c).learning_state = LearningState.review := by
  unfold sm2core
  dsimp only
  split_ifs <;> simp_all

lemma sm2core_later_success (q : ℤ) (c : Flashcard) (hq : ¬ q < 3)
    (h0 : ¬ c.repetitions = 0) (h1 : ¬ c.repetitions = 1) :
    (sm2core q c).interval = pyRound ((c.interval : ℚ) * c.ease_factor) := by
  unfold sm2core
  dsimp only
  split_ifs <;> simp_all

lemma sm2core_mastered (q : ℤ) (c : Flashcard) (hq : ¬ q < 3)
    (hI : 21 < (sm2core q c).interval) :
    (sm2core q c).learning_state = LearningState.mastered := by
  unfold sm2core at hI ⊢
  dsimp only at hI ⊢
  split_ifs at hI ⊢ <;> simp_all

/-- C3 counterexample: the out-of-range quality 6 is not rejected: the
review goes through, the studied counter is incremented and the ease
factor is updated (by the formula's value at 6, namely +0.16), so the
operation neither errors out nor leaves the state unchanged. -/
theorem sm2_invalid_quality_not_rejected :
    (process_sm2_review 0 6 (create_flashcard 0)).times_studied = 1 ∧
    (process_sm2_review 0 6 (create_flashcard 0)).ease_factor = 133/50 := by
  norm_num [process_sm2_review, bumpCounters, sm2core, create_flashcard, pyRound,
    qfloor, pyMaxQ, easeChange]

/-- C3 amended: `process_sm2_review` performs no validation of quality.
A quality outside 0..5 is processed by the normal update: the studied
counter advances, a negative quality takes the lapse branch, and a
quality above 5 takes the success branch with the ease formula
evaluated at that quality (no clamping to the 0..5 range). -/
theorem sm2_out_of_range_processed (c : Flashcard) (now q : ℤ)
    (h : q < 0 ∨ 5 < q) :
    (process_sm2_review now q c).times_studied = c.times_studied + 1 ∧
    (q < 0 →
      (process_sm2_review now q c).repetitions = 0 ∧
      (process_sm2_review now q c).interval = 0 ∧
      (process_sm2_review now q c).learning_state = LearningState.learning) ∧
    (5 < q →
      (process_sm2_review now q c).ease_factor
        = max (13/10) (c.ease_factor + easeChange q)) := by
  refine ⟨process_times_studied now q c, fun hq => ?_, fun _ => process_ease_factor now q c⟩
  exact process_lapse_fields now q c (by omega)

/-- C3 amended witness: quality 6 on a fresh card, with both the
increment and the unclamped ease update checked concretely. -/
theorem sm2_out_of_range_processed_witness :
    ((6 : ℤ) < 0 ∨ (5 : ℤ) < 6) ∧
    ((process_sm2_review 0 6 (create_flashcard 0)).times_studied
        = (create_flashcard 0).times_studied + 1 ∧
      ((6 : ℤ) < 0 →
        (process_sm2_review 0 6 (create_flashcard 0)).repetitions = 0 ∧
        (process_sm2_review 0 6 (create_flashcard 0)).interval = 0 ∧
        (process_sm2_review 0 6 (create_flashcard 0)).learning_state = LearningState.learning) ∧
      ((5 : ℤ) < 6 →
        (process_sm2_review 0 6 (create_flashcard 0)).ease_factor
          = max (13/10) ((create_flashcard 0).ease_factor + easeChange 6))) :=
  ⟨Or.inr (by decide), sm2_out_of_range_processed (create_flashcard 0) 0 6 (Or.inr (by decide))⟩

/-- C4 counterexample: a review card with interval 5 and ease factor 2.5
reviewed successfully gets interval round(12.5) = 12, not the 13 that
round-half-up would give: Python's round ties to even. -/
theorem sm2_round_half_up_refuted :
    (process_sm2_review 0 4 halfTieCard).interval = 12 ∧
    (process_sm2_review 0 4 halfTieCard).interval ≠ 13 := by
  norm_num [process_sm2_review, bumpCounters, sm2core, halfTieCard, pyRound,
    qfloor, pyMaxQ, easeChange]

/-- C4 amended: for a state with at least 2 repetitions, a successful
review sets the interval to round(interval * easeFactor) where round is
Python's round-half-to-even; in particular a product with fractional
part exactly .5 rounds to the even neighbor (5 * 2.5 = 12.5 gives 12). -/
theorem sm2_interval_growth_round_half_even (c : Flashcard) (now q : ℤ)
    (hrep : 2 ≤ c.repetitions) (hq : 3 ≤ q) :
    (process_sm2_review now q c).interval
      = pyRound ((c.interval : ℚ) * c.ease_factor) := by
  rw [process_interval_eq]
  have hb := bumpCounters_fields now q c
  have h0 : ¬ (bumpCounters now q c).repetitions = 0 := by rw [hb.2.2.2.1]; omega
  have h1 : ¬ (bumpCounters now q c).repetitions = 1 := by rw [hb.2.2.2.1]; omega
  rw [sm2core_later_success q _ (by omega) h0 h1, hb.2.2.1, hb.2.1]

/-- C4 amended witness: the half-even growth rule applied to the
concrete tie card (5 days at ease 2.5). -/
theorem sm2_interval_growth_round_half_even_witness :
    2 ≤ halfTieCard.repetitions ∧ (3 : ℤ) ≤ 4 ∧
    (process_sm2_review 0 4 halfTieCard).interval
      = pyRound ((halfTieCard.interval : ℚ) * halfTieCard.ease_factor) :=
  ⟨by decide, by decide,
    sm2_interval_growth_round_half_even halfTieCard 0 4 (by decide) (by decide)⟩

/-- C5: a successful review whose resulting interval exceeds 21 days
marks the card mastered, and a subsequent lapse on that result moves it
to learning. -/
theorem sm2_mastery_threshold (c : Flashcard) (now q now2 q2 : ℤ) (hq : 3 ≤ q) :
    (21 < (process_sm2_review now q c).interval →
      (process_sm2_review now q c).learning_state = LearningState.mastered) ∧
    (q2 < 3 →
      (process_sm2_review now2 q2 (process_sm2_review now q c)).learning_state
        = LearningState.learning) := by
  constructor
  · intro hI
    rw [process_state_eq]
    exact sm2core_mastered q _ (by omega) (by rw [← process_interval_eq]; exact hI)
  · intro h2
    exact (process_lapse_fields now2 q2 _ h2).2.2

/-- C5 witness: a review card with interval 30 at ease 2.5 grows to 75
days, is marked mastered, and lapses back to learning at quality 1. -/
theorem sm2_mastery_threshold_witness :
    (3 : ℤ) ≤ 4 ∧ 21 < (process_sm2_review 0 4 masteredCard).interval ∧
    (process_sm2_review 0 4 masteredCard).learning_state = LearningState.mastered ∧
    (1 : ℤ) < 3 ∧
    (process_sm2_review 86400 1 (process_sm2_review 0 4 masteredCard)).learning_state
      = LearningState.learning := by
  have h := sm2_mastery_threshold masteredCard 0 4 86400 1 (by decide)
  have hI : 21 < (process_sm2_review 0 4 masteredCard).interval := by
    norm_num [process_sm2_review, bumpCounters, sm2core, masteredCard, pyRound,
      qfloor, pyMaxQ, easeChange]
  exact ⟨by decide, hI, h.1 hI, by decide, h.2 (by decide)⟩

/-- C9: from any state with repetitions 0, two consecutive quality-4
reviews give interval 1 (state learning) and then interval 6 (state
review), independent of the ease factor. -/
theorem sm2_first_two_intervals (c : Flashcard) (now now2 : ℤ)
    (h0 : c.repetitions = 0) :
    (process_sm2_review now 4 c).interval = 1 ∧
    (process_sm2_review now 4 c).learning_state = LearningState.learning ∧
    (process_sm2_review now2 4 (process_sm2_review now 4 c)).interval = 6 ∧
    (process_sm2_review now2 4 (process_sm2_review now 4 c)).learning_state
      = LearningState.review := by
  have hb := bumpCounters_fields now 4 c
  have hb0 : (bumpCounters now 4 c).repetitions = 0 := by rw [hb.2.2.2.1]; exact h0
  have hfirst := sm2core_first_success 4 (bumpCounters now 4 c) (by omega) hb0
  have hreps1 : (process_sm2_review now 4 c).repetitions = 1 := by
    rw [process_reps_eq]; exact hfirst.2.1
  have hb2 := bumpCounters_fields now2 4 (process_sm2_review now 4 c)
  have hb21 : (bumpCounters now2 4 (process_sm2_review now 4 c)).repetitions = 1 := by
    rw [hb2.2.2.2.1]; exact hreps1
  have hsecond := sm2core_second_success 4 _ (by omega) hb21
  exact ⟨by rw [process_interval_eq]; exact hfirst.1,
         by rw [process_state_eq]; exact hfirst.2.2,
         by rw [process_interval_eq]; exact hsecond.1,
         by rw [process_state_eq]; exact hsecond.2.2⟩

/-- C9 witness: the fixed first two intervals on a concrete fresh
card. -/
theorem sm2_first_two_intervals_witness :
    (create_flashcard 0).repetitions = 0 ∧
    ((process_sm2_review 0 4 (create_flashcard 0)).interval = 1 ∧
      (process_sm2_review 0 4 (create_flashcard 0)).learning_state = LearningState.learning ∧
      (process_sm2_review 86400 4 (process_sm2_review 0 4 (create_flashcard 0))).interval = 6 ∧
      (process_sm2_review 86400 4 (process_sm2_review 0 4 (create_flashcard 0))).learning_state
        = LearningState.review) :=
  ⟨by decide, sm2_first_two_intervals (create_flashcard 0) 0 86400 (by decide)⟩

/-- C10: a card in state new is reported due by `is_due_for_review`
regardless of its next review date; hence a future-dated new card is
counted in the statistics' due-today field while `get_due_cards`, which
filters only on `next_review_date <= now`, excludes it. -/
theorem new_cards_always_due (c : Flashcard) (now : ℤ)
    (hn : c.learning_state = LearningState.new) :
    is_due_for_review now c = true ∧
    (now < c.next_review_date →
      (get_study_statistics now [c]).due_today = 1 ∧
      get_due_cards now [c] none = []) := by
  constructor
  · simp [is_due_for_review, hn]
  · intro hf
    have hnd : ¬ (c.next_review_date ≤ now) := not_le.mpr hf
    constructor
    · simp [get_study_statistics, is_due_for_review, hn, List.countP_cons]
    · simp [get_due_cards, hnd]

/-- C10 witness: a new card created at time 100 viewed at time 10 is
due by the model check, counted by the statistics, and absent from the
due query. -/
theorem new_cards_always_due_witness :
    (create_flashcard 100).learning_state = LearningState.new ∧
    is_due_for_review 10 (create_flashcard 100) = true ∧
    (get_study_statistics 10 [create_flashcard 100]).due_today = 1 ∧
    get_due_cards 10 [create_flashcard 100] none = [] := by
  have h := new_cards_always_due (create_flashcard 100) 10 (by decide)
  exact ⟨by decide, h.1, (h.2 (by decide)).1, (h.2 (by decide)).2⟩

/-! Transitivity and totality of the due-card priority order. -/

lemma keyLE_trans (a b c : Flashcard) (h1 : keyLE a b = true) (h2 : keyLE b c = true) :
    keyLE a c = true := by
  simp only [keyLE, decide_eq_true_eq] at h1 h2 ⊢
  rcases h1 with h | ⟨e1, hd1⟩ <;> rcases h2 with h' | ⟨e2, hd2⟩
  · left; omega
  · left; omega
  · left; omega
  · refine Or.inr ⟨by omega, ?_⟩
    rcases hd1 with h | ⟨ed1, he1⟩ <;> rcases hd2 with h' | ⟨ed2, he2⟩
    · left; omega
    · left; omega
    · left; omega
    · exact Or.inr ⟨by omega, le_trans he1 he2⟩

lemma keyLE_total (a b : Flashcard) : keyLE a b || keyLE b a := by
  simp only [Bool.or_eq_true, keyLE, decide_eq_true_eq]
  rcases lt_trichotomy (cardPriority a) (cardPriority b) with h | h | h
  · exact Or.inl (Or.inl h)
  · rcases lt_trichotomy (cardDateKey a) (cardDateKey b) with h' | h' | h'
    · exact Or.inl (Or.inr ⟨h, Or.inl h'⟩)
    · rcases le_total (cardEaseKey a) (cardEaseKey b) with h'' | h''
      · exact Or.inl (Or.inr ⟨h, Or.inr ⟨h', h''⟩⟩)
      · exact Or.inr (Or.inr ⟨h.symm, Or.inr ⟨h'.symm, h''⟩⟩)
    · exact Or.inr (Or.inr ⟨h.symm, Or.inl h'⟩)
  · exact Or.inr (Or.inl h)

lemma cardPriority_of_lapsed (a : Flashcard) (ha : isLapsedCard a = true) :
    cardPriority a = 0 := by
  simp [cardPriority, ha]

lemma lapsed_of_cardPriority (a : Flashcard) (ha : cardPriority a = 0) :
    isLapsedCard a = true := by
  cases hA : isLapsedCard a with
  | true => rfl
  | false =>
    exfalso
    simp only [cardPriority, hA, Bool.false_eq_true, if_false] at ha
    split_ifs at ha <;> omega

lemma priority2_of (a : Flashcard) (h1 : isLapsedCard a = false)
    (h2 : a.learning_state ≠ LearningState.new) : cardPriority a = 2 := by
  simp [cardPriority, h1, h2]

lemma priority2_keys (a : Flashcard) (ha : cardPriority a = 2) :
    cardDateKey a = a.next_review_date ∧ cardEaseKey a = a.ease_factor := by
  have h1 : isLapsedCard a = false := by
    cases hA : isLapsedCard a with
    | true => rw [cardPriority_of_lapsed a hA] at ha; omega
    | false => rfl
  have h2 : ¬ a.learning_state = LearningState.new := by
    intro h2
    simp [cardPriority, h1, h2] at ha
  exact ⟨by simp [cardDateKey, h1, h2], by simp [cardEaseKey, ha]⟩

lemma keyLE_lapsed (a b : Flashcard) (h : keyLE a b = true)
    (hb : isLapsedCard b = true) : isLapsedCard a = true := by
  simp only [keyLE, decide_eq_true_eq] at h
  have hpb : cardPriority b = 0 := cardPriority_of_lapsed b hb
  exact lapsed_of_cardPriority a (by omega)

lemma keyLE_review_order (a b : Flashcard) (h : keyLE a b = true)
    (ha : cardPriority a = 2) (hb : cardPriority b = 2) :
    a.next_review_date < b.next_review_date ∨
      (a.next_review_date = b.next_review_date ∧ a.ease_factor ≤ b.ease_factor) := by
  simp only [keyLE, decide_eq_true_eq] at h
  obtain ⟨hda, hea⟩ := priority2_keys a ha
  obtain ⟨hdb, heb⟩ := priority2_keys b hb
  rcases h with h | ⟨_, hd⟩
  · omega
  · rw [hda, hdb] at hd
    rw [hea, heb] at hd
    exact hd

/-- In the due list, a lapsed item only ever precedes; appearing after
some item forces that item to be lapsed too. -/
def lapsedBeforeRel (a b : Flashcard) : Prop :=
  isLapsedCard b = true → isLapsedCard a = true

/-- Within the group that is neither lapsed nor new, the due list is
ordered by next review date with ties broken by ascending ease
factor. -/
def reviewOrderRel (a b : Flashcard) : Prop :=
  isLapsedCard a = false → a.learning_state ≠ LearningState.new →
  isLapsedCard b = false → b.learning_state ≠ LearningState.new →
  (a.next_review_date < b.next_review_date ∨
    (a.next_review_date = b.next_review_date ∧ a.ease_factor ≤ b.ease_factor))

lemma get_due_cards_sublist (now : ℤ) (cards : List Flashcard) (limit : Option ℕ) :
    List.Sublist (get_due_cards now cards limit)
      ((cards.filter fun c => decide (c.next_review_date ≤ now)).mergeSort keyLE) := by
  unfold get_due_cards
  cases limit with
  | none => exact List.Sublist.refl _
  | some l =>
    dsimp only
    split_ifs
    · exact List.Sublist.refl _
    · exact List.take_sublist l _

lemma get_due_cards_pairwise_key (now : ℤ) (cards : List Flashcard) (limit : Option ℕ) :
    (get_due_cards now cards limit).Pairwise fun a b => keyLE a b = true := by
  refine List.Pairwise.sublist (get_due_cards_sublist now cards limit) ?_
  exact @List.sorted_mergeSort Flashcard keyLE keyLE_trans keyLE_total
    (cards.filter fun c => decide (c.next_review_date ≤ now))

/-- C6: every item in the due list is due; a lapsed item never appears
after a non-lapsed one; the items that are neither lapsed nor new are
in non-decreasing order of next review date with ties broken by
ascending ease factor; and a nonzero limit truncates the fully ordered
list. -/
theorem due_cards_priority_ordering (cards : List Flashcard) (now : ℤ) (limit : Option ℕ) :
    (∀ c ∈ get_due_cards now cards limit, c.next_review_date ≤ now) ∧
    (get_due_cards now cards limit).Pairwise lapsedBeforeRel ∧
    (get_due_cards now cards limit).Pairwise reviewOrderRel ∧
    (∀ l : ℕ, limit = some l → l ≠ 0 →
      get_due_cards now cards limit = (get_due_cards now cards none).take l) := by
  refine ⟨?_, ?_, ?_, ?_⟩
  · intro c hc
    have hmem := (get_due_cards_sublist now cards limit).subset hc
    rw [List.mem_mergeSort] at hmem
    have := List.of_mem_filter hmem
    simpa using this
  · refine (get_due_cards_pairwise_key now cards limit).imp ?_
    intro a b h hb
    exact keyLE_lapsed a b h hb
  · refine (get_due_cards_pairwise_key now cards limit).imp ?_
    intro a b h ha1 ha2 hb1 hb2
    exact keyLE_review_order a b h (priority2_of a ha1 ha2) (priority2_of b hb1 hb2)
  · intro l hl hl0
    subst hl
    unfold get_due_cards
    dsimp only
    rw [if_neg hl0]

/-- A lapsed card (studied, repetitions 0) due at time 5. -/
def lapsedDueCard : Flashcard :=
  { difficulty := 1, times_studied := 2, times_correct := 0, ease_factor := 2,
    interval := 0, repetitions := 0, next_review_date := 5, last_reviewed := some 1,
    learning_state := LearningState.learning, created_at := 0 }

/-- A review card due at time 4 with ease factor 2.1. -/
def reviewDueCard : Flashcard :=
  { difficulty := 2, times_studied := 3, times_correct := 3, ease_factor := 21/10,
    interval := 6, repetitions := 2, next_review_date := 4, last_reviewed := some 2,
    learning_state := LearningState.review, created_at := 0 }

/-- The three-card deck of the due-ordering witness: a review card, a
new card, and a lapsed card, all due at time 10. -/
def dueWitnessCards : List Flashcard := [reviewDueCard, create_flashcard 3, lapsedDueCard]

/-- C6 witness: on the concrete three-card deck a positive limit
truncates the ordered un-limited result. -/
theorem due_cards_priority_ordering_witness :
    get_due_cards 10 dueWitnessCards (some 2)
      = (get_due_cards 10 dueWitnessCards none).take 2 :=
  (due_cards_priority_ordering dueWitnessCards 10 (some 2)).2.2.2 2 rfl (by decide)

/-! Forecast windows. -/

/-- Membership of a card's due date in calendar day `k` of a forecast
whose day-0 window starts at midnight `m`. -/
def dayWindowP (m : ℤ) (k : ℕ) (c : Flashcard) : Bool :=
  decide (m + 86400 * (k : ℤ) ≤ c.next_review_date ∧
    c.next_review_date < m + 86400 * ((k : ℤ) + 1))

/-- Membership of a card's due date in the whole `d`-day window starting
at midnight `m`. -/
def rangeWindowP (m : ℤ) (d : ℕ) (c : Flashcard) : Bool :=
  decide (m ≤ c.next_review_date ∧ c.next_review_date < m + 86400 * (d : ℤ))

lemma startOfDay_shift (now : ℤ) (k : ℕ) :
    (now + 86400 * (k : ℤ)) / 86400 = now / 86400 + (k : ℤ) := by
  rw [mul_comm]
  exact Int.add_mul_ediv_right now (k : ℤ) (by norm_num)

lemma countP_or_split {α : Type} (l : List α) (p q : α → Bool)
    (hdisj : ∀ a, ¬(p a = true ∧ q a = true)) :
    l.countP (fun a => p a || q a) = l.countP p + l.countP q := by
  induction l with
  | nil => simp
  | cons x xs ih =>
    rw [List.countP_cons, List.countP_cons, List.countP_cons, ih]
    by_cases hp : p x = true <;> by_cases hq : q x = true
    · exact absurd ⟨hp, hq⟩ (hdisj x)
    · simp [hp, hq] <;> omega
    · simp [hp, hq] <;> omega
    · simp [hp, hq]

lemma sum_day_counts (cards : List Flashcard) (m : ℤ) (d : ℕ) :
    ((List.range d).map fun k => cards.countP (dayWindowP m k)).sum
      = cards.countP (rangeWindowP m d) := by
  induction d with
  | zero =>
    simp only [List.range_zero, List.map_nil, List.sum_nil]
    symm
    rw [List.countP_eq_zero]
    intro a _
    simp only [rangeWindowP, decide_eq_true_eq]
    omega
  | succ n ih =>
    rw [List.range_succ, List.map_append, List.sum_append]
    simp only [List.map_cons, List.map_nil, List.sum_cons, List.sum_nil]
    rw [ih]
    have hpt : ∀ a : Flashcard,
        rangeWindowP m (n + 1) a = (rangeWindowP m n a || dayWindowP m n a) := by
      intro a
      simp only [rangeWindowP, dayWindowP, ← Bool.decide_or, decide_eq_decide]
      omega
    have hdisj : ∀ a : Flashcard, ¬(rangeWindowP m n a = true ∧ dayWindowP m n a = true) := by
      intro a
      simp only [rangeWindowP, dayWindowP, decide_eq_true_eq]
      omega
    have hcong : cards.countP (rangeWindowP m (n + 1))
        = cards.countP (fun a => rangeWindowP m n a || dayWindowP m n a) :=
      List.countP_congr fun x _ => by simp only [hpt]
    rw [hcong, countP_or_split cards _ _ hdisj]
    omega

lemma forecastBucket_fields (now : ℤ) (cards : List Flashcard) (k : ℕ) :
    (forecastBucket now cards k).date = now / 86400 + (k : ℤ) ∧
    (forecastBucket now cards k).count
      = cards.countP (dayWindowP (86400 * (now / 86400)) k) := by
  constructor
  · exact startOfDay_shift now k
  · apply List.countP_congr
    intro c _
    simp only [startOfDay_shift, dayWindowP, decide_eq_true_eq]
    omega

/-- C7: for positive `days` the forecast has exactly `days` buckets; the
k-th bucket is keyed to calendar day k counted from today and counts
the cards whose due date falls in that day's midnight-to-midnight
window; the bucket counts sum to the number of cards due within the
whole window; and for an empty collection every bucket is zero. -/
theorem forecast_bucket_completeness (cards : List Flashcard) (now : ℤ) (days : ℕ)
    (hd : 0 < days) :
    (get_upcoming_reviews now days cards).length = days ∧
    (∀ k (hk : k < (get_upcoming_reviews now days cards).length),
      ((get_upcoming_reviews now days cards).get ⟨k, hk⟩).date = now / 86400 + (k : ℤ) ∧
      ((get_upcoming_reviews now days cards).get ⟨k, hk⟩).count
        = cards.countP (dayWindowP (86400 * (now / 86400)) k)) ∧
    ((get_upcoming_reviews now days cards).map ForecastEntry.count).sum
      = cards.countP (rangeWindowP (86400 * (now / 86400)) days) ∧
    (cards = [] → ∀ e ∈ get_upcoming_reviews now days cards, e.count = 0) := by
  refine ⟨by simp [get_upcoming_reviews], ?_, ?_, ?_⟩
  · intro k hk
    simp only [get_upcoming_reviews, List.get_eq_getElem, List.getElem_map,
      List.getElem_range]
    exact forecastBucket_fields now cards k
  · simp only [get_upcoming_reviews, List.map_map]
    show (List.map (fun k => (forecastBucket now cards k).count) (List.range days)).sum = _
    rw [List.map_congr_left fun k _ => (forecastBucket_fields now cards k).2]
    exact sum_day_counts cards (86400 * (now / 86400)) days
  · rintro rfl e he
    obtain ⟨k, _, rfl⟩ := List.mem_map.mp he
    simp [forecastBucket]

/-- C7 witness: the three-day forecast over the concrete three-card
deck at time 10 has exactly three buckets. -/
theorem forecast_bucket_completeness_witness :
    0 < 3 ∧ (get_upcoming_reviews 10 3 dueWitnessCards).length = 3 :=
  ⟨by decide, (forecast_bucket_completeness dueWitnessCards 10 3 (by decide)).1⟩

/-- C8 counterexample: for a single studied card with ease factor 2.5
the fraction of studied items with ease at least 2.5 is 1, but the
statistics report 100: the code returns percentages (rounded to one
decimal), not fractions. -/
theorem statistics_fraction_refuted :
    (get_study_statistics 0 [masteredCard]).retention_rate = 100 ∧
    (get_study_statistics 0 [masteredCard]).retention_rate ≠ 1 := by
  norm_num [get_study_statistics, studiedCards, masteredCard, is_due_for_review,
    pyRoundTo, pyRound, qfloor, List.countP_cons, List.filter]

lemma pyRoundTo_zero (n : ℕ) : pyRoundTo n 0 = 0 := by
  norm_num [pyRoundTo, pyRound, qfloor]

lemma sum_restrict (cards : List Flashcard) (f : Flashcard → ℕ)
    (h : ∀ c ∈ cards, c.times_studied = 0 → f c = 0) :
    (cards.map f).sum = (((studiedCards cards).map f).sum) := by
  induction cards with
  | nil => rfl
  | cons x xs ih =>
    have ih' := ih fun c hc h0 => h c (List.mem_cons_of_mem x hc) h0
    simp only [studiedCards] at ih' ⊢
    rw [List.map_cons, List.sum_cons, List.filter_cons]
    by_cases hx : 0 < x.times_studied
    · rw [if_pos (by simpa using hx), List.map_cons, List.sum_cons, ih']
    · have hfx : f x = 0 := h x (List.mem_cons_self x xs) (by omega)
      rw [if_neg (by simpa using hx), hfx, ih', Nat.zero_add]

lemma sum_map_pos {α : Type} (l : List α) (f : α → ℕ) (c : α)
    (hc : c ∈ l) (hpos : 0 < f c) : 0 < (l.map f).sum := by
  induction l with
  | nil => cases hc
  | cons x xs ih =>
    rw [List.map_cons, List.sum_cons]
    rcases List.mem_cons.mp hc with rfl | h
    · omega
    · have := ih h
      omega

/-- C8 amended: under the data-model invariant timesCorrect is 0 on
unstudied cards, the statistics report (as percentages rounded by
Python's round, not as fractions): average accuracy = 100 times the
ratio of summed correct answers to summed studies over the studied
cards, rounded to 1 decimal, 0 when nothing was studied; average ease
factor = the unweighted mean over studied cards rounded to 2 decimals;
retention rate = 100 times the fraction of studied cards with ease
factor at least 2.5, rounded to 1 decimal, 0 when nothing was
studied. -/
theorem statistics_aggregates (cards : List Flashcard) (now : ℤ)
    (hinv : ∀ c ∈ cards, c.times_studied = 0 → c.times_correct = 0) :
    (studiedCards cards = [] →
      (get_study_statistics now cards).avg_accuracy = 0 ∧
      (get_study_statistics now cards).retention_rate = 0) ∧
    (studiedCards cards ≠ [] →
      (get_study_statistics now cards).avg_accuracy
        = pyRoundTo 1 ((((studiedCards cards).map Flashcard.times_correct).sum : ℚ)
            / (((studiedCards cards).map Flashcard.times_studied).sum : ℚ) * 100) ∧
      (get_study_statistics now cards).avg_ease_factor
        = pyRoundTo 2 (((studiedCards cards).map Flashcard.ease_factor).sum
            / (((studiedCards cards).length : ℚ))) ∧
      (get_study_statistics now cards).retention_rate
        = pyRoundTo 1 ((((studiedCards cards).filter fun c =>
              decide ((5/2 : ℚ) ≤ c.ease_factor)).length : ℚ)
            / (((studiedCards cards).length : ℚ)) * 100)) := by
  by_cases hc : cards.isEmpty = true
  · have hcc : cards = [] := by
      cases cards with
      | nil => rfl
      | cons a l => simp [List.isEmpty] at hc
    subst hcc
    constructor
    · intro _
      constructor <;> simp [get_study_statistics]
    · intro hne
      exact absurd rfl hne
  · have hE : cards.isEmpty = false := by
      cases h : cards.isEmpty with
      | false => rfl
      | true => exact absurd h hc
    simp only [get_study_statistics, hE, Bool.false_eq_true, if_false]
    constructor
    · intro hs
      have hts : (cards.map Flashcard.times_studied).sum = 0 := by
        rw [sum_restrict cards _ fun c _ h0 => h0, hs]
        rfl
      have hSe : (studiedCards cards).isEmpty = true := by rw [hs]; rfl
      constructor
      · simp [hts, pyRoundTo_zero]
      · simp [hSe, pyRoundTo_zero]
    · intro hns
      have hSne : (studiedCards cards).isEmpty = false := by
        cases h : studiedCards cards with
        | nil => exact absurd h hns
        | cons a l => rfl
      obtain ⟨c0, hc0⟩ := List.exists_mem_of_ne_nil (studiedCards cards) hns
      have hc0pos : 0 < c0.times_studied := by
        have hm : c0 ∈ cards.filter fun c => decide (0 < c.times_studied) := by
          simpa [studiedCards] using hc0
        simpa using List.of_mem_filter hm
      have htc : (cards.map Flashcard.times_correct).sum
          = ((studiedCards cards).map Flashcard.times_correct).sum :=
        sum_restrict cards _ fun c hcm h0 => hinv c hcm h0
      have hts : (cards.map Flashcard.times_studied).sum
          = ((studiedCards cards).map Flashcard.times_studied).sum :=
        sum_restrict cards _ fun c _ h0 => h0
      have hpos : 0 < (cards.map Flashcard.times_studied).sum := by
        rw [hts]
        exact sum_map_pos _ _ c0 hc0 hc0pos
      refine ⟨?_, ?_, ?_⟩
      · rw [if_pos hpos, htc, hts]
      · simp only [hSne, Bool.false_eq_true, if_false]
      · simp only [hSne, Bool.false_eq_true, if_false]

/-- C8 amended witness: the retention percentage on the concrete
three-card deck, where one of the two studied cards has ease factor at
least 2.5. -/
theorem statistics_aggregates_witness :
    (get_study_statistics 0 dueWitnessCards).retention_rate
      = pyRoundTo 1 ((((studiedCards dueWitnessCards).filter fun c =>
            decide ((5/2 : ℚ) ≤ c.ease_factor)).length : ℚ)
          / (((studiedCards dueWitnessCards).length : ℚ)) * 100) :=
  ((statistics_aggregates dueWitnessCards 0 (by decide)).2 (by decide)).2.2
